import Mathlib

/-!
Verification development for the PyInstru AWG70000 driver
(`src/instruments/tectronix/AWG70000.py`): a shallow embedding of the
binary waveform/sequence container builder and its direct-transfer
counterparts, together with theorems settling the specification claims.

Modelling conventions:
* Python `str` is modelled as `List Char`; `bytes` as `List ℕ` with every
  entry below 256 (the packing helpers check the range as `struct.pack`
  does).
* Python floats are modelled as exact rationals `ℚ`; `struct.pack('<f', x)`
  is modelled by an IEEE-754 binary32 encoder on `ℚ`.
* Exceptions (`ValueError`, `KeyError`, `IndexError`, `struct.error`,
  `ZeroDivisionError`) are modelled with `Except PyErr`.
* The timestamp string that the Python code reads from the wall clock is
  passed in as an explicit parameter `timestr`.
-/

/-- The characters of a string literal. -/
def chars (s : String) : List Char := s.data

/-- Errors raised by the modelled Python code. -/
inductive PyErr where
  | valueError (msg : List Char)
  | keyError
  | indexError
  | structError
  | zeroDivisionError
deriving DecidableEq, Repr

/-- Turns an optional value into an `Except`, raising `e` on `none`
(models Python dict/array subscripts). -/
def getOrRaise (e : PyErr) : Option α → Except PyErr α
  | none => .error e
  | some a => .ok a

/-- Fuel-driven worker for `pyReplace`.  Structural recursion on the fuel
keeps the function kernel-reducible. -/
def pyReplaceFuel : ℕ → List Char → List Char → List Char → List Char
  | 0, s, _, _ => s
  | fuel+1, s, pat, rep =>
    match s with
    | [] => []
    | c :: rest =>
      if pat.isPrefixOf s ∧ pat ≠ [] then
        rep ++ pyReplaceFuel fuel (s.drop pat.length) pat rep
      else
        c :: pyReplaceFuel fuel rest pat rep

/-- Python `s.replace(pat, rep)`: replaces every occurrence of `pat`
left-to-right, non-overlapping, never rescanning replaced text.  (The
Python semantics for an empty pattern is never exercised by the source;
the model keeps the string unchanged in that case.) -/
def pyReplace (s pat rep : List Char) : List Char :=
  pyReplaceFuel s.length s pat rep

/-- Decimal-digit character for `n < 10`. -/
def digitChar (n : ℕ) : Char := Char.ofNat (48 + n)

/-- Fuel-driven decimal rendering worker (most significant digit first,
accumulator holds the already rendered suffix). -/
def natDecGo : ℕ → ℕ → List Char → List Char
  | 0, _, acc => acc
  | fuel+1, n, acc =>
    if n < 10 then digitChar n :: acc
    else natDecGo fuel (n / 10) (digitChar (n % 10) :: acc)

/-- Decimal rendering of a natural number, as Python `str`/`'%d'`. -/
def natDecimal (n : ℕ) : List Char := natDecGo (n + 1) n []

/-- Decimal rendering of an integer, as Python `f'{x:d}'`. -/
def intDecimal (z : ℤ) : List Char :=
  if z < 0 then '-' :: natDecimal z.natAbs else natDecimal z.natAbs

/-- The nine-zero offset placeholder `'0' * offsetdigits`. -/
def zeros9 : List Char := List.replicate 9 '0'

/-- Python `'{num:09d}'.format`: decimal digits left-padded with zeros to
width 9 (longer numbers keep all their digits). -/
def pad9 (n : ℕ) : List Char :=
  List.replicate (9 - (natDecimal n).length) '0' ++ natDecimal n

/-- Numeric value of a digit string (used to read the back-patched offset
attribute). -/
def parseDigits (l : List Char) : ℕ :=
  l.foldl (fun acc c => acc * 10 + (c.toNat - 48)) 0

/-- The numeric value of the 9-digit offset attribute of a serialized
header: the nine characters following `<DataFile offset="`. -/
def declaredOffset (s : List Char) : ℕ :=
  parseDigits ((s.drop 18).take 9)

/-- Python/numpy `max()` over a float array: `none` on the empty array
(where numpy raises). -/
def npMax : List ℚ → Option ℚ
  | [] => none
  | x :: xs => some (xs.foldl max x)

/-- Python/numpy `min()` over a float array. -/
def npMin : List ℚ → Option ℚ
  | [] => none
  | x :: xs => some (xs.foldl min x)

/-- numpy `.astype(int)`: truncation toward zero. -/
def truncQ (q : ℚ) : ℤ := Int.tdiv q.num q.den

/-- XML attribute-value escaping as performed by
`xml.etree.ElementTree` (`_escape_attrib`). -/
def escAttrChar (c : Char) : List Char :=
  if c = '&' then chars "&amp;"
  else if c = '<' then chars "&lt;"
  else if c = '>' then chars "&gt;"
  else if c = '"' then chars "&quot;"
  else if c = '\r' then chars "&#13;"
  else if c = '\n' then chars "&#10;"
  else if c = '\t' then chars "&#09;"
  else [c]

/-- Escape a whole attribute value. -/
def escAttr (l : List Char) : List Char := l.flatMap escAttrChar

/-- XML text escaping as performed by `xml.etree.ElementTree`
(`_escape_cdata`). -/
def escTextChar (c : Char) : List Char :=
  if c = '&' then chars "&amp;"
  else if c = '<' then chars "&lt;"
  else if c = '>' then chars "&gt;"
  else [c]

/-- Escape element text. -/
def escText (l : List Char) : List Char := l.flatMap escTextChar

/-- An `xml.etree.ElementTree.Element`: tag, attributes in insertion
order, text (empty list models `text is None`; the source never sets an
empty text), children in insertion order.  Tail text is never used by the
source and is not modelled. -/
inductive XElem where
  | mk (tag : List Char) (attrs : List (List Char × List Char))
       (text : List Char) (children : List XElem)

/-- Tag of an element. -/
def XElem.tagOf : XElem → List Char
  | .mk tag _ _ _ => tag

/-- Text of an element. -/
def XElem.textOf : XElem → List Char
  | .mk _ _ text _ => text

/-- Children of an element. -/
def XElem.childrenOf : XElem → List XElem
  | .mk _ _ _ children => children

/-- Text of the first child carrying the given tag, as
`elem.find(tag).text` would return it. -/
def childText (x : XElem) (tag : List Char) : Option (List Char) :=
  (x.childrenOf.find? (fun c => c.tagOf = tag)).map XElem.textOf

/-- Serialization of one attribute: space, name, `="`, escaped value,
closing quote. -/
def attrSer (a : List Char × List Char) : List Char :=
  ' ' :: a.1 ++ '=' :: '"' :: escAttr a.2 ++ ['"']

/-- Depth-fuelled serializer for `ET.tostring(..., encoding='unicode')`
with the default short-empty-element form.  Structural recursion on the
depth keeps the function kernel-reducible; every tree built by the source
has depth below 20, so `xserialize` is exact on them. -/
def xser : ℕ → XElem → List Char
  | 0, _ => []
  | d+1, .mk tag attrs text children =>
    if text.isEmpty && children.isEmpty then
      '<' :: tag ++ (attrs.map attrSer).flatten ++ chars " />"
    else
      '<' :: tag ++ (attrs.map attrSer).flatten ++ '>' :: escText text
        ++ (children.map (xser d)).flatten
        ++ '<' :: '/' :: tag ++ ['>']

/-- Serializer entry point. -/
def xserialize (x : XElem) : List Char := xser 20 x

/-- Python `bytes(s, 'ascii')`: every character must be ASCII. -/
def asciiEncode (s : List Char) : Except PyErr (List ℕ) :=
  if s.all (fun c => c.toNat < 128) then .ok (s.map Char.toNat)
  else .error (.valueError (chars "ascii codec cant encode character"))

/-- Python `struct.pack(N * 'B', ...)`: one unsigned byte per value,
raising `struct.error` out of range. -/
def packB : List ℤ → Except PyErr (List ℕ)
  | [] => .ok []
  | x :: xs =>
    if 0 ≤ x ∧ x ≤ 255 then do
      let rest ← packB xs
      .ok (x.toNat :: rest)
    else .error .structError

/-- Round a rational to the nearest integer, ties to even (IEEE-754
default rounding, as used by `struct.pack('<f', ...)`). -/
def rhe (q : ℚ) : ℤ :=
  if q - ⌊q⌋ < 1/2 then ⌊q⌋
  else if (1 : ℚ)/2 < q - ⌊q⌋ then ⌊q⌋ + 1
  else if ⌊q⌋ % 2 = 0 then ⌊q⌋ else ⌊q⌋ + 1

/-- IEEE-754 binary32 bit pattern of a rational (sign, biased exponent,
mantissa), with round-half-even.  Values beyond the binary32 range are
encoded as infinity; that regime is never exercised by the source data
(`struct.pack` would raise `OverflowError` there). -/
def f32bits (q : ℚ) : ℕ :=
  if q = 0 then 0
  else
    let s : ℕ := if q < 0 then 2^31 else 0
    let a : ℚ := |q|
    let e : ℤ := Int.log 2 a
    if e < -126 then
      s + (rhe (a * 2^(149 : ℤ))).toNat
    else if 127 < e then s + 255 * 2^23
    else
      let m : ℤ := rhe (a * 2^(23 - e))
      if m = 2^24 then
        if e = 127 then s + 255 * 2^23
        else s + (e + 128).toNat * 2^23
      else s + (e + 127).toNat * 2^23 + (m.toNat - 2^23)

/-- Little-endian byte serialization of one binary32 value:
`struct.pack('<f', q)`. -/
def f32le (q : ℚ) : List ℕ :=
  [f32bits q % 256, f32bits q / 256 % 256,
   f32bits q / 65536 % 256, f32bits q / 16777216 % 256]

/-- `struct.pack('<' + N * 'f', *wfm)`: concatenated little-endian
binary32 encodings. -/
def packFloats (l : List ℚ) : List ℕ := l.flatMap f32le

/-- Per-channel waveform data handed to the builders: either a shape
`(N,)` float array (waveform only) or a shape `(M, N)` array
`np.array([wfm, m1, ...])` whose first row is the waveform and whose
remaining rows are marker bit-planes. -/
inductive WfmData where
  | oneD (w : List ℚ)
  | twoD (w : List ℚ) (markerRows : List (List ℚ))

/-- The rescaling `wfm = wfm * scale` with `scale = 2 / amplitude`
(`_make_WFMX_file_binary_data` lines 424-425, `_send_waveform`
lines 472-473). -/
def rescale (w : List ℚ) (amplitude : ℚ) : List ℚ :=
  w.map (fun x => x * (2 / amplitude))

/-- Channel voltage window `(channel_min, channel_max)`
(`_make_WFMX_file_binary_data` lines 383-388). -/
def channelLimits (amplitude : ℚ) : ℚ × ℚ :=
  if amplitude < 0 then (amplitude / 2, -amplitude / 2)
  else (-amplitude / 2, amplitude / 2)

/-- The marker-combination loop of `_make_WFMX_file_binary_data`
(lines 400-408): starting from `markers = data[1, :]`, each further row
`data[i + 1, :]` is added scaled by `2 ** i + 2 ** (i + 2)`. -/
def combineRowsAux : ℕ → List ℚ → List (List ℚ) → List ℚ
  | _, acc, [] => acc
  | i, acc, r :: rs =>
    combineRowsAux (i + 1)
      (List.zipWith (fun a b => a + b * ((2 : ℚ)^i + 2^(i + 2))) acc r) rs

/-- Binary part of a .wfmx file (`_make_WFMX_file_binary_data`): packed
little-endian floats followed by the combined marker bytes.  The returned
Bool records whether the out-of-range diagnostic (`log.warning`,
lines 414-420) was emitted; the samples are packed unclipped either
way. -/
def makeWFMXBinaryDataE (data : WfmData) (amplitude : ℚ) :
    Except PyErr (Bool × List ℕ) := do
  let lims := channelLimits amplitude
  match data with
  | .oneD w => do
    let wmax ← getOrRaise (.valueError (chars "zero-size array reduction")) (npMax w)
    let wmin ← getOrRaise (.valueError (chars "zero-size array reduction")) (npMin w)
    let warned := if lims.2 < wmax ∨ wmin < lims.1 then true else false
    if amplitude = 0 then .error .zeroDivisionError
    else .ok (warned, packFloats (rescale w amplitude))
  | .twoD w mrows => do
    let m1 ← getOrRaise .indexError mrows[0]?
    let combined := combineRowsAux 1 m1 mrows.tail
    let binaryMarker ← packB (combined.map truncQ)
    let wmax ← getOrRaise (.valueError (chars "zero-size array reduction")) (npMax w)
    let wmin ← getOrRaise (.valueError (chars "zero-size array reduction")) (npMin w)
    let warned := if lims.2 < wmax ∨ wmin < lims.1 then true else false
    if amplitude = 0 then .error .zeroDivisionError
    else .ok (warned, packFloats (rescale w amplitude) ++ binaryMarker)

/-- Sample count and `markers_included` flag derived from the input shape
(`make_WFMX_file` lines 498-506). -/
def wfmShapeInfo : WfmData → ℕ × Bool
  | .oneD w => (w.length, false)
  | .twoD w _ => (w.length, true)

/-- The .wfmx XML header element tree built by `_make_WFMX_file_header`
(lines 298-352), with the wall-clock timestamp as a parameter. -/
def wfmxHeaderTree (numSamples : ℕ) (markersIncluded : Bool)
    (timestr : List Char) : XElem :=
  .mk (chars "DataFile")
    [(chars "offset", zeros9), (chars "version", chars "0.2")] []
    [.mk (chars "DataSetsCollection")
      [(chars "xmlns", chars "http://www.tektronix.com"),
       (chars "xmlns:xsi", chars "http://www.w3.org/2001/XMLSchema-instance"),
       (chars "xsi:schemaLocation",
        chars "http://www.tektronix.com file:///C:\\Program%20Files\\Tektronix\\AWG70000\\AWG\\Schemas\\awgDataSets.xsd")] []
      [.mk (chars "DataSets")
        [(chars "version", chars "1"), (chars "xmlns", chars "http://www.tektronix.com")] []
        [.mk (chars "DataDescription") [] []
          [.mk (chars "NumberSamples") [] (natDecimal numSamples) [],
           .mk (chars "SamplesType") [] (chars "AWGWaveformSample") [],
           .mk (chars "MarkersIncluded") []
             (if markersIncluded then chars "true" else chars "false") [],
           .mk (chars "NumberFormat") [] (chars "Single") [],
           .mk (chars "Endian") [] (chars "Little") [],
           .mk (chars "Timestamp") [] timestr []],
         .mk (chars "ProductSpecific") [(chars "name", chars "AWG70002B")] []
          [.mk (chars "RecSamplingRate") [(chars "units", chars "Hz")] (chars "NaN") [],
           .mk (chars "RecAmplitude") [(chars "units", chars "Volts")] (chars "NaN") [],
           .mk (chars "RecOffset") [(chars "units", chars "Volts")] (chars "NaN") [],
           .mk (chars "RecFrequency") [(chars "units", chars "Hz")] (chars "NaN") [],
           .mk (chars "SerialNumber") [] (chars "B010294") [],
           .mk (chars "SoftwareVersion") [] (chars "7.1.0170.0") [],
           .mk (chars "UserNotes") [] [] [],
           .mk (chars "Thumbnail") [] [] [],
           .mk (chars "SignalFormat") [] (chars "Real") [],
           .mk (chars "CreatorProperties") [(chars "name", [])] [] []]]],
     .mk (chars "Setup") [] [] []]

/-- Serialized header before pretty-printing (`ET.tostring`, line 354). -/
def wfmxSerialized (n : ℕ) (mi : Bool) (t : List Char) : List Char :=
  xserialize (wfmxHeaderTree n mi t)

/-- Header after inserting line breaks between adjacent tags
(`xmlstr.replace('><', '>\r\n<')`, line 355). -/
def wfmxPretty (n : ℕ) (mi : Bool) (t : List Char) : List Char :=
  pyReplace (wfmxSerialized n mi t) (chars "><") (chars ">\r\n<")

/-- Header after back-patching the 9-digit offset placeholder with the
header's own length (lines 360-362). -/
def wfmxPatched (n : ℕ) (mi : Bool) (t : List Char) : List Char :=
  pyReplace (wfmxPretty n mi t) zeros9 (pad9 (wfmxPretty n mi t).length)

/-- `_make_WFMX_file_header`: rejects sample counts below 2400 before any
XML construction, otherwise returns the patched header string. -/
def makeWFMXHeaderE (numSamples : ℕ) (markersIncluded : Bool)
    (timestr : List Char) : Except PyErr (List Char) :=
  if numSamples < 2400 then
    .error (.valueError (chars "num_samples must be at least 2400."))
  else .ok (wfmxPatched numSamples markersIncluded timestr)

/-- `make_WFMX_file`: ASCII-encoded header followed by the binary data
blob. -/
def makeWFMXFileE (data : WfmData) (amplitude : ℚ) (timestr : List Char) :
    Except PyErr (List ℕ) := do
  let hdr ← makeWFMXHeaderE (wfmShapeInfo data).1 (wfmShapeInfo data).2 timestr
  let hdrBytes ← asciiEncode hdr
  let bin ← makeWFMXBinaryDataE data amplitude
  .ok (hdrBytes ++ bin.2)

/-- The `waitinputs` lookup table of `_make_SML_file` (line 1194):
0 is None, 1 is TrigA, 2 is TrigB, 3 is Internal; any other key raises
`KeyError`. -/
def waitinputsSML (x : ℤ) : Option (List Char) :=
  if x = 0 then some (chars "None")
  else if x = 1 then some (chars "TrigA")
  else if x = 2 then some (chars "TrigB")
  else if x = 3 then some (chars "Internal")
  else none

/-- The `eventinputs` lookup table of `_make_SML_file` (line 1195). -/
def eventinputsSML (x : ℤ) : Option (List Char) :=
  if x = 0 then some (chars "None")
  else if x = 1 then some (chars "TrigA")
  else if x = 2 then some (chars "TrigB")
  else if x = 3 then some (chars "Internal")
  else none

/-- One `FlagSet` element with its four `NoChange` flags
(`_make_SML_file` lines 1308-1312). -/
def flagSetElem : XElem :=
  .mk (chars "FlagSet") []  []
    [.mk (chars "Flag") [(chars "name", chars "A")] (chars "NoChange") [],
     .mk (chars "Flag") [(chars "name", chars "B")] (chars "NoChange") [],
     .mk (chars "Flag") [(chars "name", chars "C")] (chars "NoChange") [],
     .mk (chars "Flag") [(chars "name", chars "D")] (chars "NoChange") []]

/-- One `Asset` element (lines 1296-1304): asset name plus asset type
(`Sequence` for subsequence positions, `Waveform` otherwise). -/
def assetElem (isSub : Bool) (name : List Char) : XElem :=
  .mk (chars "Asset") [] []
    [.mk (chars "AssetName") [] name [],
     .mk (chars "AssetType") []
       (if isSub then chars "Sequence" else chars "Waveform") []]

/-- One `Step` element of the sequence descriptor: the body of the
`for n in range(1, N + 1)` loop of `_make_SML_file` (lines 1255-1312),
taking the per-step scalars `trig_waits[n-1]`, `nreps[n-1]`,
`event_jumps[n-1]`, `event_jump_to[n-1]`, `go_to[n-1]` and
`elem_names[n-1]`. -/
def mkSMLStepE (n : ℕ) (tw nr ej ejt gt : ℤ) (names : List (List Char))
    (isSub : Bool) (chans : ℕ) : Except PyErr XElem := do
  let wi ← getOrRaise .keyError (waitinputsSML tw)
  let ei ← getOrRaise .keyError (eventinputsSML ej)
  let repPair :=
    if nr = 0 then (chars "Infinite", chars "1")
    else if nr = 1 then (chars "Once", chars "1")
    else (chars "RepeatCount", intDecimal nr)
  let jumpPair :=
    if ejt = 0 then (chars "Next", chars "1")
    else (chars "StepIndex", intDecimal ejt)
  let gotoPair :=
    if gt = 0 then (chars "Next", chars "1")
    else (chars "StepIndex", intDecimal gt)
  .ok (.mk (chars "Step") [] []
    [.mk (chars "StepNumber") [] (natDecimal n) [],
     .mk (chars "Repeat") [] repPair.1 [],
     .mk (chars "RepeatCount") [] repPair.2 [],
     .mk (chars "WaitInput") [] wi [],
     .mk (chars "EventJumpInput") [] ei [],
     .mk (chars "EventJumpTo") [] jumpPair.1 [],
     .mk (chars "EventJumpToStep") [] jumpPair.2 [],
     .mk (chars "GoTo") [] gotoPair.1 [],
     .mk (chars "GoToStep") [] gotoPair.2 [],
     .mk (chars "Assets") [] [] (names.map (assetElem isSub)),
     .mk (chars "Flags") [] [] (List.replicate chans flagSetElem)])

/-- The input-length validation of `_make_SML_file` (lines 1197-1207):
only `trig_waits`, `nreps`, `event_jump_to` and `go_to` are length
checked (`event_jumps` is absent from `inputlsts` in the source), the
common length must be nonzero and must match `len(elem_names)`.  The same
code appears verbatim in `_send_sequence` (lines 1374-1384). -/
def smlValidateE (tw nr ejt gt : List ℤ)
    (elemNames : List (List (List Char))) : Except PyErr ℕ :=
  if ¬ (nr.length = tw.length ∧ ejt.length = tw.length ∧ gt.length = tw.length) then
    .error (.valueError (chars "All input lists must have the same length!"))
  else if tw.length = 0 then
    .error (.valueError (chars "Received empty sequence option lengths!"))
  else if tw.length ≠ elemNames.length then
    .error (.valueError (chars "Mismatch between number of waveforms and number of sequencing steps."))
  else .ok tw.length

/-- The step-construction loop of `_make_SML_file`: for each `n` from 1
to `N`, fetch the per-step options (an out-of-range `event_jumps` access
raises `IndexError`, the other four lists are length-checked) and build
the `Step` element. -/
def buildSMLStepsE (tw nr ej ejt gt : List ℤ)
    (elemNames : List (List (List Char))) (subseqPositions : List ℕ)
    (chans : ℕ) : Except PyErr (List XElem) :=
  (List.range tw.length).mapM (fun k => do
    let twk ← getOrRaise .indexError tw[k]?
    let nrk ← getOrRaise .indexError nr[k]?
    let ejk ← getOrRaise .indexError ej[k]?
    let ejtk ← getOrRaise .indexError ejt[k]?
    let gtk ← getOrRaise .indexError gt[k]?
    let namesk ← getOrRaise .indexError elemNames[k]?
    mkSMLStepE (k + 1) twk nrk ejk ejtk gtk namesk
      (subseqPositions.contains (k + 1)) chans)

/-- The sequence-descriptor element tree of `_make_SML_file`
(lines 1224-1316), with the step elements passed in. -/
def smlTree (seqname : List Char) (chans n : ℕ) (timestr : List Char)
    (steps : List XElem) : XElem :=
  .mk (chars "DataFile")
    [(chars "offset", zeros9), (chars "version", chars "0.1")] []
    [.mk (chars "DataSetsCollection")
      [(chars "xmlns", chars "http://www.tektronix.com"),
       (chars "xmlns:xsi", chars "http://www.w3.org/2001/XMLSchema-instance"),
       (chars "xsi:schemaLocation",
        chars "http://www.tektronix.com file:///C:\\Program%20Files\\Tektronix\\AWG70000\\AWG\\Schemas\\awgSeqDataSets.xsd")] []
      [.mk (chars "DataSets")
        [(chars "version", chars "1"), (chars "xmlns", chars "http://www.tektronix.com")] []
        [.mk (chars "DataDescription") [] []
          [.mk (chars "SequenceName") [] seqname [],
           .mk (chars "Timestamp") [] timestr [],
           .mk (chars "JumpTiming") [] (chars "JumpImmed") [],
           .mk (chars "RecSampleRate") [] (chars "NaN") [],
           .mk (chars "RepeatFlag") [] (chars "false") [],
           .mk (chars "PatternJumpTable")
             [(chars "Enabled", chars "false"), (chars "Count", chars "256")] [] [],
           .mk (chars "Steps")
             [(chars "StepCount", natDecimal n), (chars "TrackCount", natDecimal chans)]
             [] steps],
         .mk (chars "ProductSpecific") [(chars "name", [])] [] []]],
     .mk (chars "Setup") [] [] []]

/-- `_make_SML_file` up to and including the pretty-printing replacement
(line 1322): validation, step construction, serialization, and the
`'><'`-to-`'>\r\n<'` rewrite. -/
def smlPrettyE (tw nr ej ejt gt : List ℤ)
    (elemNames : List (List (List Char))) (seqname : List Char)
    (chans : ℕ) (subseqPositions : List ℕ) (timestr : List Char) :
    Except PyErr (List Char) := do
  let n ← smlValidateE tw nr ejt gt elemNames
  let steps ← buildSMLStepsE tw nr ej ejt gt elemNames subseqPositions chans
  .ok (pyReplace (xserialize (smlTree seqname chans n timestr steps))
        (chars "><") (chars ">\r\n<"))

/-- `_make_SML_file`: the pretty-printed descriptor with the 9-digit
offset placeholder back-patched to the descriptor's own length
(lines 1327-1329). -/
def makeSMLFileE (tw nr ej ejt gt : List ℤ)
    (elemNames : List (List (List Char))) (seqname : List Char)
    (chans : ℕ) (subseqPositions : List ℕ) (timestr : List Char) :
    Except PyErr (List Char) :=
  (smlPrettyE tw nr ej ejt gt elemNames seqname chans subseqPositions timestr).map
    (fun p => pyReplace p zeros9 (pad9 p.length))

/-- Result of `_send_waveform`: the `markers_included` flag, the value
appended to the instrument driver's `_nb_marker` accumulator, and the two
binary blobs handed to the transfer commands. -/
structure SendWfm where
  markersIncluded : Bool
  nbMarker : ℕ
  binaryWfm : List ℕ
  binaryMarker : List ℕ
deriving Repr

/-- The `_nb_marker` accounting of `_send_waveform` (lines 450-465): 0
for marker-free data; otherwise 2 when `max(marker2)` is truthy, else 1.
Reading `marker2 = data[2, :]` raises `IndexError` when the input has
fewer than three rows. -/
def nbMarkerOf : WfmData → Except PyErr ℕ
  | .oneD _ => .ok 0
  | .twoD _ mrows => do
    let _m1 ← getOrRaise .indexError mrows[0]?
    let m2 ← getOrRaise .indexError mrows[1]?
    let mx ← getOrRaise (.valueError (chars "max arg is an empty sequence")) (npMax m2)
    .ok (if mx = 0 then 1 else 2)

/-- `_send_waveform` (lines 434-484), up to the instrument transfer: the
marker byte packing (bits 6 and 7), the `_nb_marker` accounting, the
rescaling, the hard out-of-range check (raising `ValueError` before any
transfer), and the float packing. -/
def sendWaveformE (data : WfmData) (amplitude : ℚ) :
    Except PyErr SendWfm := do
  match data with
  | .oneD w => do
    if amplitude = 0 then .error .zeroDivisionError
    else
    let ws := rescale w amplitude
    let wmax ← getOrRaise (.valueError (chars "max arg is an empty sequence")) (npMax ws)
    let wmin ← getOrRaise (.valueError (chars "max arg is an empty sequence")) (npMin ws)
    if 1 < wmax ∨ wmin < -1 then
      .error (.valueError (chars "Waveform exceeds specified channel range."))
    else .ok ⟨false, 0, packFloats ws, []⟩
  | .twoD w mrows => do
    let m1 ← getOrRaise .indexError mrows[0]?
    let m2 ← getOrRaise .indexError mrows[1]?
    let nb ← nbMarkerOf (.twoD w mrows)
    let markers := List.zipWith (fun a b => a * 64 + b * 128) m1 m2
    let binaryMarker ← packB (markers.map truncQ)
    if amplitude = 0 then .error .zeroDivisionError
    else
    let ws := rescale w amplitude
    let wmax ← getOrRaise (.valueError (chars "max arg is an empty sequence")) (npMax ws)
    let wmin ← getOrRaise (.valueError (chars "max arg is an empty sequence")) (npMin ws)
    if 1 < wmax ∨ wmin < -1 then
      .error (.valueError (chars "Waveform exceeds specified channel range."))
    else .ok ⟨true, nb, packFloats ws, binaryMarker⟩

/-- Assembly of the per-channel array in `load_broadbean_sequence`
(lines 973-980): `np.stack((wfm, *marker_data))` when any marker key is
present, the bare waveform otherwise. -/
def stackData (wfm : List ℚ) (markerData : List (List ℚ)) : WfmData :=
  if markerData.isEmpty then .oneD wfm else .twoD wfm markerData

/-- The `_nb_marker` lists collected by one `load_broadbean_sequence`
call: one entry per waveform sent. -/
def collectNbMarkers (wfms : List WfmData) : Except PyErr (List ℕ) :=
  wfms.mapM nbMarkerOf

/-- The DAC-resolution selection of `load_broadbean_sequence`
(lines 1015-1021): the bound is `10 - max(self._nb_marker)`; a missing
resolution is auto-set to the bound, an explicit resolution above the
bound raises `ValueError`. -/
def selectResolution (nbMarkers : List ℕ) (resolution : Option ℕ) :
    Except PyErr ℕ := do
  let mx ← getOrRaise (.valueError (chars "max arg is an empty sequence")) nbMarkers.max?
  let maxResolution := 10 - mx
  match resolution with
  | none => .ok maxResolution
  | some r =>
    if maxResolution < r then
      .error (.valueError (chars "Specified resolution exceed the maximum"))
    else .ok r

/-- Python set equality of two integer lists. -/
def pySetEq (a b : List ℕ) : Bool :=
  a.all (fun x => b.contains x) && b.all (fun x => a.contains x)

/-- The channel-mapping validation shared by
`make_SEQX_from_forged_sequence` (lines 745-753) and
`load_broadbean_sequence` (lines 954-962): the mapping's key set must
equal the set of logical channels collected from the tree, and its value
set must equal `set(range(1, 1 + len(chan_list)))`.  Logical channel
labels are modelled as naturals; `chanList` is the deduplicated list of
channels in first-seen order, `mapping` the dict as a key-value list. -/
def mappingChecks (chanList : List ℕ) (mapping : List (ℕ × ℕ)) :
    Except PyErr Unit :=
  if ¬ pySetEq chanList (mapping.map Prod.fst) then
    .error (.valueError (chars "Invalid channel_mapping. The sequence has channels not in the channel_mapping."))
  else if ¬ pySetEq (mapping.map Prod.snd) (List.range' 1 chanList.length) then
    .error (.valueError (chars "Invalid channel_mapping. Must map onto the dense channel range."))
  else .ok ()

/-- The `waitinputs` table of `_send_sequence` (line 1371): note that
both 1 and 3 map to the `ATR` token. -/
def waitinputsSend (x : ℤ) : Option (List Char) :=
  if x = 0 then some (chars "OFF")
  else if x = 1 then some (chars "ATR")
  else if x = 2 then some (chars "BTR")
  else if x = 3 then some (chars "ATR")
  else none

/-- The `eventinputs` table of `_send_sequence` (line 1372). -/
def eventinputsSend (x : ℤ) : Option (List Char) :=
  if x = 0 then some (chars "OFF")
  else if x = 1 then some (chars "ATR")
  else if x = 2 then some (chars "BTR")
  else if x = 3 then some (chars "ATR")
  else none

/-- A double-quoted string fragment of a SCPI command. -/
def quoted (s : List Char) : List Char := '"' :: s ++ ['"']

/-- Python `s.split(sep)` for a single-character separator. -/
def pySplit (s : List Char) (sep : Char) : List (List Char) :=
  match s with
  | [] => [[]]
  | c :: rest =>
    match pySplit rest sep with
    | [] => if c = sep then [[], []] else [[c]]
    | h :: t => if c = sep then [] :: h :: t else (c :: h) :: t

/-- The command fragments contributed by one step of `_send_sequence`
(the body of the `for n in range(1, N + 1)` loop, lines 1391-1418). -/
def sendSeqStepE (seqname : List Char) (n : ℕ) (tw nr ej ejt gt : ℤ)
    (names : List (List Char)) : Except PyErr (List Char) := do
  let wi ← getOrRaise .keyError (waitinputsSend tw)
  let ei ← getOrRaise .keyError (eventinputsSend ej)
  let stepPart := chars ":SLIS:SEQ:STEP" ++ natDecimal n
  let rcoPart :=
    if nr = 0 then stepPart ++ chars ":RCO " ++ quoted seqname ++ chars ",Infinite;"
    else if nr ≠ 1 then stepPart ++ chars ":RCO " ++ quoted seqname ++ ',' :: intDecimal nr ++ [';']
    else []
  let wPart :=
    if wi ≠ chars "OFF" then
      stepPart ++ chars ":WINPUT " ++ quoted seqname ++ ',' :: wi ++ [';']
    else []
  let ePart :=
    if ei ≠ chars "OFF" then
      stepPart ++ chars ":EJIN " ++ quoted seqname ++ ',' :: ei ++ [';']
        ++ stepPart ++ chars ":EJUMP " ++ quoted seqname
        ++ ',' :: (if ejt = 0 then chars "Next" else intDecimal ejt) ++ [';']
    else []
  let gPart :=
    if gt ≠ 0 then
      stepPart ++ chars ":GOTO " ++ quoted seqname ++ ',' :: intDecimal gt ++ [';']
    else []
  let aParts ← names.mapM (fun an => do
    let track ← getOrRaise .indexError (pySplit an '_')[3]?
    .ok (stepPart ++ chars ":TASS" ++ track ++ chars ":WAV "
      ++ quoted seqname ++ ',' :: quoted an ++ [';']))
  .ok (rcoPart ++ wPart ++ ePart ++ gPart ++ aParts.flatten)

/-- `_send_sequence` (lines 1333-1420): the validation (identical to the
one in `_make_SML_file`) followed by the accumulated SCPI command
stack. -/
def sendSequenceE (tw nr ej ejt gt : List ℤ)
    (elemNames : List (List (List Char))) (seqname : List Char)
    (chans : ℕ) : Except PyErr (List Char) := do
  let n ← smlValidateE tw nr ejt gt elemNames
  let stepCmds ← (List.range n).mapM (fun k => do
    let twk ← getOrRaise .indexError tw[k]?
    let nrk ← getOrRaise .indexError nr[k]?
    let ejk ← getOrRaise .indexError ej[k]?
    let ejtk ← getOrRaise .indexError ejt[k]?
    let gtk ← getOrRaise .indexError gt[k]?
    let namesk ← getOrRaise .indexError elemNames[k]?
    sendSeqStepE seqname (k + 1) twk nrk ejk ejtk gtk namesk)
  .ok (chars ":SLIS:SEQ:NEW " ++ quoted seqname ++ chars ", " ++ natDecimal n
    ++ chars ", " ++ natDecimal chans ++ [';'] ++ stepCmds.flatten)

/-- A fixed sample timestamp used by the concrete witnesses (the format
`strftime('%Y-%m-%dT%H:%M:%S.%f')[:-3]` plus UTC offset produces). -/
def sampleTimestr : List Char := chars "2023-01-02T03:04:05.678+01:00"

/-! ## Lemmas about the string utilities -/

theorem pyReplaceFuel_nil (fuel : ℕ) (pat rep : List Char) :
    pyReplaceFuel fuel [] pat rep = [] := by
  cases fuel <;> rfl

theorem pyReplaceFuel_congr (pat rep : List Char) :
    ∀ fuel fuel' s, s.length ≤ fuel → s.length ≤ fuel' →
      pyReplaceFuel fuel s pat rep = pyReplaceFuel fuel' s pat rep := by
  intro fuel
  induction fuel with
  | zero =>
    intro fuel' s hs _
    have : s = [] := List.length_eq_zero.mp (Nat.le_zero.mp hs)
    subst this
    rw [pyReplaceFuel_nil, pyReplaceFuel_nil]
  | succ f ih =>
    intro fuel' s hs hs'
    match s with
    | [] => rw [pyReplaceFuel_nil, pyReplaceFuel_nil]
    | c :: rest =>
      match fuel' with
      | 0 => exact absurd hs' (by simp)
      | f' + 1 =>
        show (if pat.isPrefixOf (c :: rest) ∧ pat ≠ [] then
                rep ++ pyReplaceFuel f ((c :: rest).drop pat.length) pat rep
              else c :: pyReplaceFuel f rest pat rep)
           = (if pat.isPrefixOf (c :: rest) ∧ pat ≠ [] then
                rep ++ pyReplaceFuel f' ((c :: rest).drop pat.length) pat rep
              else c :: pyReplaceFuel f' rest pat rep)
        by_cases hc : pat.isPrefixOf (c :: rest) ∧ pat ≠ []
        · rw [if_pos hc, if_pos hc]
          have hplen : 1 ≤ pat.length := by
            cases pat with
            | nil => exact absurd rfl hc.2
            | cons p pt => simp
          have hdl : ((c :: rest).drop pat.length).length ≤ f := by
            simp only [List.length_drop, List.length_cons]
            simp only [List.length_cons] at hs
            omega
          have hdl' : ((c :: rest).drop pat.length).length ≤ f' := by
            simp only [List.length_drop, List.length_cons]
            simp only [List.length_cons] at hs'
            omega
          rw [ih f' _ hdl hdl']
        · rw [if_neg hc, if_neg hc]
          have h1 : rest.length ≤ f := by simp only [List.length_cons] at hs; omega
          have h2 : rest.length ≤ f' := by simp only [List.length_cons] at hs'; omega
          rw [ih f' rest h1 h2]

theorem isPrefixOf_cons_ne {p c : Char} (pt xs : List Char) (h : c ≠ p) :
    (p :: pt).isPrefixOf (c :: xs) = false := by
  simp [List.isPrefixOf, beq_iff_eq]
  intro he
  exact absurd he.symm h

theorem pyReplace_skip (p : Char) (pt rep : List Char) :
    ∀ (a b : List Char), (∀ c ∈ a, c ≠ p) →
      pyReplace (a ++ b) (p :: pt) rep = a ++ pyReplace b (p :: pt) rep := by
  intro a
  induction a with
  | nil => intro b _; simp
  | cons c a' ih =>
    intro b ha
    have hc : c ≠ p := ha c (List.mem_cons_self c a')
    show pyReplaceFuel (c :: (a' ++ b)).length (c :: (a' ++ b)) (p :: pt) rep
       = (c :: a') ++ pyReplace b (p :: pt) rep
    simp only [List.length_cons]
    show (if (p :: pt).isPrefixOf (c :: (a' ++ b)) ∧ (p :: pt) ≠ [] then
            rep ++ pyReplaceFuel (a' ++ b).length ((c :: (a' ++ b)).drop (p :: pt).length) (p :: pt) rep
          else c :: pyReplaceFuel (a' ++ b).length (a' ++ b) (p :: pt) rep)
       = (c :: a') ++ pyReplace b (p :: pt) rep
    rw [if_neg]
    · rw [show pyReplaceFuel (a' ++ b).length (a' ++ b) (p :: pt) rep
            = pyReplace (a' ++ b) (p :: pt) rep from rfl]
      rw [ih b (fun x hx => ha x (List.mem_cons_of_mem c hx))]
      rfl
    · rw [isPrefixOf_cons_ne pt (a' ++ b) hc]
      simp

theorem pyReplace_consume (pat t rep : List Char) (hp : pat ≠ []) :
    pyReplace (pat ++ t) pat rep = rep ++ pyReplace t pat rep := by
  match pat with
  | p :: pt =>
    show pyReplaceFuel ((p :: pt) ++ t).length ((p :: pt) ++ t) (p :: pt) rep
       = rep ++ pyReplace t (p :: pt) rep
    have hlen : ((p :: pt) ++ t).length = (pt ++ t).length + 1 := by simp
    rw [hlen]
    show (if (p :: pt).isPrefixOf (p :: (pt ++ t)) ∧ (p :: pt) ≠ [] then
            rep ++ pyReplaceFuel (pt ++ t).length ((p :: (pt ++ t)).drop (p :: pt).length) (p :: pt) rep
          else p :: pyReplaceFuel (pt ++ t).length (pt ++ t) (p :: pt) rep)
       = rep ++ pyReplace t (p :: pt) rep
    rw [if_pos]
    · have hdrop : (p :: (pt ++ t)).drop (p :: pt).length = t := by
        show ((p :: pt) ++ t).drop (p :: pt).length = t
        exact List.drop_left _ _
      rw [hdrop]
      congr 1
      apply pyReplaceFuel_congr
      · simp
      · exact Nat.le_refl _
    · constructor
      · rw [List.isPrefixOf_iff_prefix]
        exact ⟨t, by simp⟩
      · simp

theorem pyReplaceFuel_length (pat rep : List Char) (hp : pat ≠ [])
    (hl : rep.length = pat.length) :
    ∀ fuel s, s.length ≤ fuel →
      (pyReplaceFuel fuel s pat rep).length = s.length := by
  intro fuel
  induction fuel with
  | zero => intro s _; rfl
  | succ f ih =>
    intro s hs
    match s with
    | [] => rw [pyReplaceFuel_nil]
    | c :: rest =>
      show (if pat.isPrefixOf (c :: rest) ∧ pat ≠ [] then
              rep ++ pyReplaceFuel f ((c :: rest).drop pat.length) pat rep
            else c :: pyReplaceFuel f rest pat rep).length
         = (c :: rest).length
      by_cases hc : pat.isPrefixOf (c :: rest) ∧ pat ≠ []
      · rw [if_pos hc]
        have hple : pat.length ≤ (c :: rest).length :=
          (List.isPrefixOf_iff_prefix.mp hc.1).length_le
        have hdl : ((c :: rest).drop pat.length).length ≤ f := by
          simp only [List.length_drop, List.length_cons]
          have hp1 : 1 ≤ pat.length := by
            cases pat with
            | nil => exact absurd rfl hp
            | cons _ _ => simp
          simp only [List.length_cons] at hs
          omega
        simp only [List.length_append, ih _ hdl, List.length_drop]
        simp only [List.length_cons] at hple ⊢
        omega
      · rw [if_neg hc]
        have h1 : rest.length ≤ f := by simp only [List.length_cons] at hs; omega
        simp only [List.length_cons, ih rest h1]

theorem pyReplace_length (pat rep : List Char) (hp : pat ≠ [])
    (hl : rep.length = pat.length) (s : List Char) :
    (pyReplace s pat rep).length = s.length :=
  pyReplaceFuel_length pat rep hp hl s.length s (Nat.le_refl _)

/-! ## Lemmas about decimal rendering and parsing -/

theorem natDecGo_append (fuel : ℕ) :
    ∀ n acc, natDecGo fuel n acc = natDecGo fuel n [] ++ acc := by
  induction fuel with
  | zero => intro n acc; rfl
  | succ f ih =>
    intro n acc
    show (if n < 10 then digitChar n :: acc
          else natDecGo f (n / 10) (digitChar (n % 10) :: acc))
       = (if n < 10 then digitChar n :: ([] : List Char)
          else natDecGo f (n / 10) (digitChar (n % 10) :: [])) ++ acc
    by_cases h : n < 10
    · rw [if_pos h, if_pos h]; rfl
    · rw [if_neg h, if_neg h, ih (n / 10) (digitChar (n % 10) :: acc),
          ih (n / 10) [digitChar (n % 10)]]
      simp

theorem natDecGo_fuel :
    ∀ fuel fuel' n, n < fuel → n < fuel' →
      natDecGo fuel n [] = natDecGo fuel' n [] := by
  intro fuel
  induction fuel with
  | zero => intro fuel' n h; omega
  | succ f ih =>
    intro fuel' n hf hf'
    match fuel' with
    | 0 => omega
    | f' + 1 =>
      show (if n < 10 then digitChar n :: ([] : List Char)
            else natDecGo f (n / 10) [digitChar (n % 10)])
         = (if n < 10 then digitChar n :: ([] : List Char)
            else natDecGo f' (n / 10) [digitChar (n % 10)])
      by_cases h : n < 10
      · rw [if_pos h, if_pos h]
      · rw [if_neg h, if_neg h,
            natDecGo_append f, natDecGo_append f',
            ih f' (n / 10) (by omega) (by omega)]

theorem natDecimal_lt_ten {n : ℕ} (h : n < 10) : natDecimal n = [digitChar n] := by
  show natDecGo (n + 1) n [] = [digitChar n]
  match n, h with
  | 0, _ => rfl
  | k + 1, h =>
    show (if k + 1 < 10 then digitChar (k + 1) :: ([] : List Char)
          else natDecGo (k + 1) ((k + 1) / 10) [digitChar ((k + 1) % 10)])
       = [digitChar (k + 1)]
    rw [if_pos h]

theorem natDecimal_ge_ten {n : ℕ} (h : 10 ≤ n) :
    natDecimal n = natDecimal (n / 10) ++ [digitChar (n % 10)] := by
  show natDecGo (n + 1) n [] = natDecimal (n / 10) ++ [digitChar (n % 10)]
  have h1 : ¬ n < 10 := by omega
  match n, h with
  | k + 1, h =>
    show (if k + 1 < 10 then digitChar (k + 1) :: ([] : List Char)
          else natDecGo (k + 1) ((k + 1) / 10) [digitChar ((k + 1) % 10)])
       = natDecimal ((k + 1) / 10) ++ [digitChar ((k + 1) % 10)]
    rw [if_neg h1, natDecGo_append]
    congr 1
    exact natDecGo_fuel (k + 1) ((k + 1) / 10 + 1) ((k + 1) / 10)
      (by omega) (by omega)

theorem natDecimal_length_le :
    ∀ n k, 1 ≤ k → n < 10^k → (natDecimal n).length ≤ k := by
  intro n
  induction n using Nat.strong_induction_on with
  | _ n ih =>
    intro k hk hn
    by_cases h : n < 10
    · rw [natDecimal_lt_ten h]
      simpa using hk
    · have h10 : 10 ≤ n := by omega
      rw [natDecimal_ge_ten h10]
      have hk2 : 2 ≤ k := by
        by_contra hc
        have : k = 1 := by omega
        subst this
        simp at hn
        omega
      have hdiv : n / 10 < 10^(k-1) := by
        have hpow : (10:ℕ)^k = 10^(k-1) * 10 := by
          conv_lhs => rw [show k = (k-1) + 1 by omega]
          rw [pow_succ]
        rw [Nat.div_lt_iff_lt_mul (by omega : 0 < 10)]
        omega
      have := ih (n / 10) (by omega) (k - 1) (by omega) hdiv
      simp only [List.length_append, List.length_cons, List.length_nil]
      omega

theorem natDecimal_length_pos (n : ℕ) : 1 ≤ (natDecimal n).length := by
  by_cases h : n < 10
  · rw [natDecimal_lt_ten h]; simp
  · rw [natDecimal_ge_ten (by omega)]; simp

theorem pad9_length {n : ℕ} (h : n < 10^9) : (pad9 n).length = 9 := by
  have h9 := natDecimal_length_le n 9 (by omega) h
  simp only [pad9, List.length_append, List.length_replicate]
  omega

theorem digitChar_toNat {n : ℕ} (h : n < 10) : (digitChar n).toNat = 48 + n := by
  interval_cases n <;> rfl

theorem parseFold_natDecimal :
    ∀ n a, List.foldl (fun acc c => acc * 10 + (c.toNat - 48)) a (natDecimal n)
      = a * 10^(natDecimal n).length + n := by
  intro n
  induction n using Nat.strong_induction_on with
  | _ n ih =>
    intro a
    by_cases h : n < 10
    · rw [natDecimal_lt_ten h]
      simp [digitChar_toNat h]
    · have h10 : 10 ≤ n := by omega
      rw [natDecimal_ge_ten h10, List.foldl_append,
          ih (n / 10) (by omega) a]
      simp only [List.foldl_cons, List.foldl_nil, List.length_append,
        List.length_cons, List.length_nil]
      rw [digitChar_toNat (by omega : n % 10 < 10)]
      have hmod : 48 + n % 10 - 48 = n % 10 := by omega
      rw [hmod, pow_succ]
      have := Nat.div_add_mod n 10
      ring_nf
      omega

theorem parseFold_zeros :
    ∀ j, List.foldl (fun acc c => acc * 10 + (c.toNat - 48)) 0
      (List.replicate j '0') = 0 := by
  intro j
  induction j with
  | zero => rfl
  | succ k ih =>
    rw [List.replicate_succ, List.foldl_cons]
    simpa using ih

theorem parseDigits_pad9 (n : ℕ) : parseDigits (pad9 n) = n := by
  unfold parseDigits pad9
  rw [List.foldl_append, parseFold_zeros, parseFold_natDecimal]
  simp

/-! ## The offset back-patch argument -/

theorem offsetPatch_split (raw : List Char)
    (h27 : raw.take 27 = chars "<DataFile offset=\"000000000") :
    ∀ rep : List Char, rep.length = 9 →
      (pyReplace (pyReplace raw (chars "><") (chars ">\r\n<")) zeros9 rep).length
        = (pyReplace raw (chars "><") (chars ">\r\n<")).length
      ∧ (pyReplace (pyReplace raw (chars "><") (chars ">\r\n<")) zeros9 rep).drop 18
        = rep ++ pyReplace (pyReplace (raw.drop 27) (chars "><") (chars ">\r\n<")) zeros9 rep := by
  intro rep hrep
  have hraw : raw = (chars "<DataFile offset=\"" ++ zeros9) ++ raw.drop 27 := by
    conv_lhs => rw [← List.take_append_drop 27 raw]
    rw [h27]
    rfl
  have h1 : pyReplace raw (chars "><") (chars ">\r\n<")
      = (chars "<DataFile offset=\"" ++ zeros9)
        ++ pyReplace (raw.drop 27) (chars "><") (chars ">\r\n<") := by
    conv_lhs => rw [hraw]
    exact pyReplace_skip '>' ['<'] (chars ">\r\n<")
      (chars "<DataFile offset=\"" ++ zeros9) (raw.drop 27) (by decide)
  have h2 : pyReplace (pyReplace raw (chars "><") (chars ">\r\n<")) zeros9 rep
      = chars "<DataFile offset=\""
        ++ (rep ++ pyReplace (pyReplace (raw.drop 27) (chars "><") (chars ">\r\n<")) zeros9 rep) := by
    rw [h1, List.append_assoc]
    have hskip := pyReplace_skip '0' (List.replicate 8 '0') rep
      (chars "<DataFile offset=\"")
      (zeros9 ++ pyReplace (raw.drop 27) (chars "><") (chars ">\r\n<"))
      (by decide)
    rw [show ('0' :: List.replicate 8 '0') = zeros9 from rfl] at hskip
    rw [hskip]
    congr 1
    exact pyReplace_consume zeros9 _ rep (by decide)
  have hinner : (pyReplace (pyReplace (raw.drop 27) (chars "><") (chars ">\r\n<")) zeros9 rep).length
      = (pyReplace (raw.drop 27) (chars "><") (chars ">\r\n<")).length :=
    pyReplace_length zeros9 rep (by decide) (by rw [hrep]; rfl) _
  refine ⟨?_, ?_⟩
  · rw [h2, h1]
    simp only [List.length_append, hinner]
    simp only [hrep, zeros9, List.length_replicate]
    omega
  · rw [h2]
    have h18 : (chars "<DataFile offset=\"").length = 18 := rfl
    conv_lhs => rw [← h18]
    exact List.drop_left _ _

theorem offsetPatch_correct (raw : List Char)
    (h27 : raw.take 27 = chars "<DataFile offset=\"000000000")
    (hlen : (pyReplace raw (chars "><") (chars ">\r\n<")).length < 10^9) :
    (pyReplace (pyReplace raw (chars "><") (chars ">\r\n<")) zeros9
        (pad9 (pyReplace raw (chars "><") (chars ">\r\n<")).length)).length
      = (pyReplace raw (chars "><") (chars ">\r\n<")).length
  ∧ declaredOffset (pyReplace (pyReplace raw (chars "><") (chars ">\r\n<")) zeros9
        (pad9 (pyReplace raw (chars "><") (chars ">\r\n<")).length))
      = (pyReplace (pyReplace raw (chars "><") (chars ">\r\n<")) zeros9
        (pad9 (pyReplace raw (chars "><") (chars ">\r\n<")).length)).length := by
  obtain ⟨hL, hdrop⟩ := offsetPatch_split raw h27
    (pad9 (pyReplace raw (chars "><") (chars ">\r\n<")).length) (pad9_length hlen)
  refine ⟨hL, ?_⟩
  unfold declaredOffset
  rw [hdrop]
  rw [List.take_left' (pad9_length hlen)]
  rw [parseDigits_pad9, hL]

theorem wfmxSerialized_take27 (n : ℕ) (mi : Bool) (t : List Char) :
    (wfmxSerialized n mi t).take 27 = chars "<DataFile offset=\"000000000" := rfl

theorem smlSerialized_take27 (sq : List Char) (ch n : ℕ) (t : List Char)
    (steps : List XElem) :
    (xserialize (smlTree sq ch n t steps)).take 27
      = chars "<DataFile offset=\"000000000" := rfl

theorem wfmxHeader_offset_correct (n : ℕ) (mi : Bool) (t : List Char)
    (h2400 : 2400 ≤ n) (hlen : (wfmxPretty n mi t).length < 10^9) :
    makeWFMXHeaderE n mi t = .ok (wfmxPatched n mi t)
    ∧ (wfmxPatched n mi t).length = (wfmxPretty n mi t).length
    ∧ declaredOffset (wfmxPatched n mi t) = (wfmxPatched n mi t).length := by
  have hok : makeWFMXHeaderE n mi t = .ok (wfmxPatched n mi t) := by
    unfold makeWFMXHeaderE
    rw [if_neg (by omega)]
  obtain ⟨hL, hdo⟩ :=
    offsetPatch_correct (wfmxSerialized n mi t) (wfmxSerialized_take27 n mi t) hlen
  exact ⟨hok, hL, hdo⟩

theorem smlPrettyE_shape (tw nr ej ejt gt : List ℤ)
    (en : List (List (List Char))) (sq : List Char) (ch : ℕ)
    (sp : List ℕ) (t p : List Char)
    (h : smlPrettyE tw nr ej ejt gt en sq ch sp t = .ok p) :
    ∃ n steps, p = pyReplace (xserialize (smlTree sq ch n t steps))
      (chars "><") (chars ">\r\n<") := by
  unfold smlPrettyE at h
  cases hv : smlValidateE tw nr ejt gt en with
  | error e => rw [hv] at h; exact Except.noConfusion h
  | ok n =>
    rw [hv] at h
    cases hb : buildSMLStepsE tw nr ej ejt gt en sp ch with
    | error e => rw [hb] at h; exact Except.noConfusion h
    | ok steps =>
      rw [hb] at h
      exact ⟨n, steps, (Except.ok.inj h).symm⟩

theorem sml_offset_correct (tw nr ej ejt gt : List ℤ)
    (en : List (List (List Char))) (sq : List Char) (ch : ℕ)
    (sp : List ℕ) (t p : List Char)
    (h : smlPrettyE tw nr ej ejt gt en sq ch sp t = .ok p)
    (hlen : p.length < 10^9) :
    makeSMLFileE tw nr ej ejt gt en sq ch sp t
      = .ok (pyReplace p zeros9 (pad9 p.length))
    ∧ (pyReplace p zeros9 (pad9 p.length)).length = p.length
    ∧ declaredOffset (pyReplace p zeros9 (pad9 p.length))
      = (pyReplace p zeros9 (pad9 p.length)).length := by
  refine ⟨?_, ?_⟩
  · unfold makeSMLFileE
    rw [h]
    rfl
  · obtain ⟨n, steps, hp⟩ := smlPrettyE_shape tw nr ej ejt gt en sq ch sp t p h
    rw [hp] at hlen ⊢
    exact (offsetPatch_correct (xserialize (smlTree sq ch n t steps))
      (smlSerialized_take27 sq ch n t steps) hlen).imp id id

theorem pyBind_ok {α β : Type} (x : α) (f : α → Except PyErr β) :
    ((Except.ok x : Except PyErr α) >>= f) = f x := rfl

theorem pyBind_error {α β : Type} (e : PyErr) (f : α → Except PyErr β) :
    ((Except.error e : Except PyErr α) >>= f) = Except.error e := rfl

theorem wfmxFile_slice (data : WfmData) (amp : ℚ) (t : List Char) (c : List ℕ)
    (hok : makeWFMXFileE data amp t = .ok c)
    (hlen : (wfmxPretty (wfmShapeInfo data).1 (wfmShapeInfo data).2 t).length < 10^9) :
    ∃ w bin, makeWFMXBinaryDataE data amp = .ok (w, bin)
      ∧ c = (wfmxPatched (wfmShapeInfo data).1 (wfmShapeInfo data).2 t).map Char.toNat ++ bin
      ∧ c.drop (declaredOffset (wfmxPatched (wfmShapeInfo data).1 (wfmShapeInfo data).2 t))
          = bin := by
  unfold makeWFMXFileE at hok
  by_cases h2400 : (wfmShapeInfo data).1 < 2400
  · rw [show makeWFMXHeaderE (wfmShapeInfo data).1 (wfmShapeInfo data).2 t
        = .error (.valueError (chars "num_samples must be at least 2400.")) from by
          unfold makeWFMXHeaderE; rw [if_pos h2400]] at hok
    rw [pyBind_error] at hok
    exact Except.noConfusion hok
  · rw [show makeWFMXHeaderE (wfmShapeInfo data).1 (wfmShapeInfo data).2 t
        = .ok (wfmxPatched (wfmShapeInfo data).1 (wfmShapeInfo data).2 t) from by
          unfold makeWFMXHeaderE; rw [if_neg h2400]] at hok
    rw [pyBind_ok] at hok
    cases hae : asciiEncode (wfmxPatched (wfmShapeInfo data).1 (wfmShapeInfo data).2 t) with
    | error e => rw [hae, pyBind_error] at hok; exact Except.noConfusion hok
    | ok hb =>
      rw [hae, pyBind_ok] at hok
      cases hbin : makeWFMXBinaryDataE data amp with
      | error e => rw [hbin, pyBind_error] at hok; exact Except.noConfusion hok
      | ok wb =>
        rw [hbin, pyBind_ok] at hok
        have hc : hb ++ wb.2 = c := Except.ok.inj hok
        have hb_eq : hb = (wfmxPatched (wfmShapeInfo data).1 (wfmShapeInfo data).2 t).map Char.toNat := by
          unfold asciiEncode at hae
          by_cases hall : ((wfmxPatched (wfmShapeInfo data).1 (wfmShapeInfo data).2 t).all
              (fun c => c.toNat < 128))
          · rw [if_pos hall] at hae
            exact (Except.ok.inj hae).symm
          · rw [if_neg hall] at hae
            exact Except.noConfusion hae
        refine ⟨wb.1, wb.2, by simp [hbin], by rw [← hc, hb_eq], ?_⟩
        rw [← hc, hb_eq]
        have hoff := (wfmxHeader_offset_correct (wfmShapeInfo data).1
          (wfmShapeInfo data).2 t (by omega) hlen).2.2
        rw [hoff]
        rw [show (wfmxPatched (wfmShapeInfo data).1 (wfmShapeInfo data).2 t).length
            = ((wfmxPatched (wfmShapeInfo data).1 (wfmShapeInfo data).2 t).map Char.toNat).length
            from (List.length_map _ _).symm]
        exact List.drop_left _ _

/-! ## Claim theorems -/

/-- C3: for every valid input, the 9-digit zero-padded offset attribute
back-patched into the serialized .wfmx header (`_make_WFMX_file_header`)
and into the .sml sequence descriptor (`_make_SML_file`) numerically
equals the exact byte length of the serialized XML header string, so that
slicing the container at the declared offset yields exactly the binary
payload. -/
theorem c3_offset_backpatch :
    (∀ (n : ℕ) (mi : Bool) (t : List Char), 2400 ≤ n →
      (wfmxPretty n mi t).length < 10^9 →
      makeWFMXHeaderE n mi t = .ok (wfmxPatched n mi t)
      ∧ declaredOffset (wfmxPatched n mi t) = (wfmxPatched n mi t).length)
  ∧ (∀ (tw nr ej ejt gt : List ℤ) (en : List (List (List Char)))
       (sq : List Char) (ch : ℕ) (sp : List ℕ) (t p : List Char),
      smlPrettyE tw nr ej ejt gt en sq ch sp t = .ok p → p.length < 10^9 →
      makeSMLFileE tw nr ej ejt gt en sq ch sp t
        = .ok (pyReplace p zeros9 (pad9 p.length))
      ∧ declaredOffset (pyReplace p zeros9 (pad9 p.length))
          = (pyReplace p zeros9 (pad9 p.length)).length)
  ∧ (∀ (data : WfmData) (amp : ℚ) (t : List Char) (c : List ℕ),
      makeWFMXFileE data amp t = .ok c →
      (wfmxPretty (wfmShapeInfo data).1 (wfmShapeInfo data).2 t).length < 10^9 →
      ∃ w bin, makeWFMXBinaryDataE data amp = .ok (w, bin)
        ∧ c = (wfmxPatched (wfmShapeInfo data).1 (wfmShapeInfo data).2 t).map Char.toNat ++ bin
        ∧ c.drop (declaredOffset (wfmxPatched (wfmShapeInfo data).1 (wfmShapeInfo data).2 t))
            = bin) := by
  refine ⟨?_, ?_, ?_⟩
  · intro n mi t h2400 hlen
    obtain ⟨h1, _, h3⟩ := wfmxHeader_offset_correct n mi t h2400 hlen
    exact ⟨h1, h3⟩
  · intro tw nr ej ejt gt en sq ch sp t p hok hlen
    obtain ⟨h1, _, h3⟩ := sml_offset_correct tw nr ej ejt gt en sq ch sp t p hok hlen
    exact ⟨h1, h3⟩
  · exact wfmxFile_slice

set_option maxRecDepth 100000 in
/-- Witness for C3 at a concrete sample count and timestamp. -/
theorem c3_offset_backpatch_witness :
    2400 ≤ 2400
    ∧ (wfmxPretty 2400 false sampleTimestr).length < 10^9
    ∧ (makeWFMXHeaderE 2400 false sampleTimestr
          = .ok (wfmxPatched 2400 false sampleTimestr)
       ∧ declaredOffset (wfmxPatched 2400 false sampleTimestr)
           = (wfmxPatched 2400 false sampleTimestr).length) :=
  ⟨Nat.le_refl 2400, by decide,
   c3_offset_backpatch.1 2400 false sampleTimestr (Nat.le_refl 2400) (by decide)⟩

/-- C1: the validation of `_make_SML_file` omits `event_jumps` from the
length check, so five per-step option arrays of unequal length do NOT
always raise a validation error: here `event_jumps` has two entries while
the four checked arrays and `elem_names` have one, yet the builder
returns a complete descriptor. -/
theorem c1_event_jumps_not_length_checked :
    ([(0 : ℤ), 0] : List ℤ).length ≠ ([(0 : ℤ)] : List ℤ).length
    ∧ (makeSMLFileE [0] [1] [0, 0] [0] [0] [[chars "wfm"]] (chars "seq") 1 []
        sampleTimestr).isOk = true
    ∧ smlValidateE [0] [1] [0] [0] [[chars "wfm"]] = .ok 1 := by
  refine ⟨by decide, by decide, rfl⟩

/-- C8: a sample count below 2400 is rejected by `_make_WFMX_file_header`
with a `ValueError`, before any XML is constructed, and `make_WFMX_file`
therefore rejects such waveforms as well. -/
theorem c8_min_sample_count (n : ℕ) (hn : n < 2400) (mi : Bool) (t : List Char) :
    makeWFMXHeaderE n mi t
      = .error (.valueError (chars "num_samples must be at least 2400."))
    ∧ ∀ (data : WfmData) (amp : ℚ), (wfmShapeInfo data).1 = n →
        makeWFMXFileE data amp t
          = .error (.valueError (chars "num_samples must be at least 2400.")) := by
  have hhdr : ∀ m : ℕ, m < 2400 → ∀ b : Bool, makeWFMXHeaderE m b t
      = .error (.valueError (chars "num_samples must be at least 2400.")) := by
    intro m hm b
    unfold makeWFMXHeaderE
    rw [if_pos hm]
  refine ⟨hhdr n hn mi, ?_⟩
  intro data amp hshape
  unfold makeWFMXFileE
  rw [hshape, hhdr n hn (wfmShapeInfo data).2, pyBind_error]

/-- Witness for C8 at a concrete undersized sample count. -/
theorem c8_min_sample_count_witness :
    100 < 2400
    ∧ makeWFMXHeaderE 100 false sampleTimestr
        = .error (.valueError (chars "num_samples must be at least 2400.")) :=
  ⟨by decide, (c8_min_sample_count 100 (by decide) false sampleTimestr).1⟩

/-- C9: a per-channel array with exactly one marker row (waveform plus
`m1`, the shape produced by `load_broadbean_sequence` when a leaf defines
only `m1`) makes `_send_waveform` read row index 2 of the input, which is
out of bounds: the call fails with an `IndexError` instead of packing the
single marker, for every waveform, marker row and amplitude. -/
theorem c9_one_marker_breaks_send (w m1 : List ℚ) (amp : ℚ) :
    stackData w [m1] = WfmData.twoD w [m1]
    ∧ sendWaveformE (WfmData.twoD w [m1]) amp = .error .indexError
    ∧ nbMarkerOf (WfmData.twoD w [m1]) = .error .indexError := by
  refine ⟨rfl, ?_, rfl⟩
  unfold sendWaveformE
  rfl

/-- C10: `_send_sequence` encodes trigger source 3 (internal) with the
same instrument token `ATR` as source 1 (trigger A), for both the
trigger-wait and the event-jump tables, so a step programmed with source
3 produces exactly the command fragments of one programmed with source 1;
`_make_SML_file` instead maps 3 to `Internal` and 1 to `TrigA`. -/
theorem c10_internal_trigger_sent_as_trigger_a :
    waitinputsSend 3 = some (chars "ATR")
    ∧ waitinputsSend 1 = some (chars "ATR")
    ∧ eventinputsSend 3 = eventinputsSend 1
    ∧ (∀ (sq : List Char) (n : ℕ) (nr ejt gt : ℤ) (names : List (List Char)),
        sendSeqStepE sq n 3 nr 3 ejt gt names = sendSeqStepE sq n 1 nr 1 ejt gt names)
    ∧ waitinputsSML 3 = some (chars "Internal")
    ∧ waitinputsSML 1 = some (chars "TrigA") := by
  refine ⟨rfl, rfl, rfl, ?_, rfl, rfl⟩
  intro sq n nr ejt gt names
  rfl

/-- C5: in every step element built by the `_make_SML_file` loop body,
`nreps` 0 encodes as Repeat `Infinite` with RepeatCount written as 1,
`nreps` 1 as `Once`, other values as `RepeatCount` with the literal
count; `WaitInput` is `trig_waits` mapped through the fixed table
0:None, 1:TrigA, 2:TrigB, 3:Internal; and the go-to target is `Next`
when `go_to` is 0, else the literal step index via `GoToStep`. -/
theorem c5_sml_step_encoding (n : ℕ) (tw nr ej ejt gt : ℤ)
    (names : List (List Char)) (isSub : Bool) (chans : ℕ)
    (htw : tw = 0 ∨ tw = 1 ∨ tw = 2 ∨ tw = 3)
    (hej : ej = 0 ∨ ej = 1 ∨ ej = 2 ∨ ej = 3) :
    ∃ st, mkSMLStepE n tw nr ej ejt gt names isSub chans = .ok st
      ∧ (nr = 0 → childText st (chars "Repeat") = some (chars "Infinite")
            ∧ childText st (chars "RepeatCount") = some (chars "1"))
      ∧ (nr = 1 → childText st (chars "Repeat") = some (chars "Once")
            ∧ childText st (chars "RepeatCount") = some (chars "1"))
      ∧ (nr ≠ 0 → nr ≠ 1 →
            childText st (chars "Repeat") = some (chars "RepeatCount")
            ∧ childText st (chars "RepeatCount") = some (intDecimal nr))
      ∧ childText st (chars "WaitInput")
          = some (if tw = 0 then chars "None" else if tw = 1 then chars "TrigA"
                  else if tw = 2 then chars "TrigB" else chars "Internal")
      ∧ (gt = 0 → childText st (chars "GoTo") = some (chars "Next")
            ∧ childText st (chars "GoToStep") = some (chars "1"))
      ∧ (gt ≠ 0 → childText st (chars "GoTo") = some (chars "StepIndex")
            ∧ childText st (chars "GoToStep") = some (intDecimal gt)) := by
  have hwi : waitinputsSML tw
      = some (if tw = 0 then chars "None" else if tw = 1 then chars "TrigA"
              else if tw = 2 then chars "TrigB" else chars "Internal") := by
    rcases htw with rfl | rfl | rfl | rfl <;> rfl
  obtain ⟨ei, hei⟩ : ∃ ei, eventinputsSML ej = some ei := by
    rcases hej with rfl | rfl | rfl | rfl <;> exact ⟨_, rfl⟩
  simp only [mkSMLStepE, hwi, hei, getOrRaise, pyBind_ok]
  refine ⟨_, rfl, ?_, ?_, ?_, rfl, ?_, ?_⟩
  · intro h; subst h; exact ⟨rfl, rfl⟩
  · intro h; subst h; exact ⟨rfl, rfl⟩
  · intro h0 h1
    rw [if_neg h0, if_neg h1]
    exact ⟨rfl, rfl⟩
  · intro h; subst h; exact ⟨rfl, rfl⟩
  · intro h
    rw [if_neg h]
    exact ⟨rfl, rfl⟩

/-- Witness for C5: step 2 of the specification scenario
(`nreps` 0, `trig_waits` 1) yields Repeat `Infinite`, WaitInput `TrigA`,
GoTo `Next`. -/
theorem c5_sml_step_encoding_witness :
    ((1 : ℤ) = 0 ∨ (1 : ℤ) = 1 ∨ (1 : ℤ) = 2 ∨ (1 : ℤ) = 3)
    ∧ ∃ st, mkSMLStepE 2 1 0 0 0 0 [chars "a"] false 2 = .ok st
        ∧ childText st (chars "Repeat") = some (chars "Infinite")
        ∧ childText st (chars "RepeatCount") = some (chars "1")
        ∧ childText st (chars "WaitInput") = some (chars "TrigA")
        ∧ childText st (chars "GoTo") = some (chars "Next") := by
  obtain ⟨st, hok, h0, _, _, hwait, hg0, _⟩ :=
    c5_sml_step_encoding 2 1 0 0 0 0 [chars "a"] false 2
      (Or.inr (Or.inl rfl)) (Or.inl rfl)
  exact ⟨Or.inr (Or.inl rfl), st, hok, (h0 rfl).1, (h0 rfl).2, hwait, (hg0 rfl).1⟩

/-- C6: with output enabled and no explicit resolution,
`load_broadbean_sequence` sets the DAC resolution to 10 minus the maximum
of the per-waveform marker counts recorded by `_send_waveform`; an
explicit resolution above that bound raises a `ValueError`, one within it
is used as given.  The recorded counts are exactly `nbMarkerOf` of each
waveform of the call. -/
theorem c6_resolution_selection (nbs : List ℕ) (mx : ℕ)
    (hmax : nbs.max? = some mx) :
    selectResolution nbs none = .ok (10 - mx)
    ∧ (∀ r, 10 - mx < r → selectResolution nbs (some r)
        = .error (.valueError (chars "Specified resolution exceed the maximum")))
    ∧ (∀ r, r ≤ 10 - mx → selectResolution nbs (some r) = .ok r)
    ∧ (∀ wfms, collectNbMarkers wfms = .ok nbs →
        List.Forall₂ (fun d k => nbMarkerOf d = .ok k) wfms nbs) := by
  refine ⟨?_, ?_, ?_, ?_⟩
  · unfold selectResolution
    rw [hmax]
    rfl
  · intro r hr
    unfold selectResolution
    rw [hmax]
    simp only [getOrRaise, pyBind_ok]
    rw [if_pos hr]
  · intro r hr
    unfold selectResolution
    rw [hmax]
    simp only [getOrRaise, pyBind_ok]
    rw [if_neg (by omega)]
  · intro wfms
    clear hmax
    induction wfms generalizing nbs with
    | nil =>
      intro h
      have : nbs = [] := (Except.ok.inj h).symm
      subst this
      exact List.Forall₂.nil
    | cons d ds ih =>
      intro h
      unfold collectNbMarkers at h
      rw [List.mapM_cons] at h
      cases hd : nbMarkerOf d with
      | error e => rw [hd] at h; exact Except.noConfusion h
      | ok k =>
        rw [hd] at h
        cases hds : ds.mapM nbMarkerOf with
        | error e =>
          rw [hds] at h
          exact Except.noConfusion h
        | ok ks =>
          rw [hds] at h
          have : k :: ks = nbs := Except.ok.inj h
          subst this
          exact List.Forall₂.cons hd (ih ks hds)

/-- Witness for C6: one marker-free waveform and one whose second marker
row is nonzero give counts 0 and 2, and the auto-selected resolution is
10 - 2 = 8. -/
theorem c6_resolution_selection_witness :
    ([0, 2] : List ℕ).max? = some 2
    ∧ selectResolution [0, 2] none = .ok 8
    ∧ collectNbMarkers [WfmData.oneD [0], WfmData.twoD [0] [[0, 0], [1, 1]]]
        = .ok [0, 2]
    ∧ List.Forall₂ (fun d k => nbMarkerOf d = .ok k)
        [WfmData.oneD [0], WfmData.twoD [0] [[0, 0], [1, 1]]] [0, 2] := by
  have hmax : ([0, 2] : List ℕ).max? = some 2 := by decide
  refine ⟨hmax, (c6_resolution_selection [0, 2] 2 hmax).1, rfl,
    (c6_resolution_selection [0, 2] 2 hmax).2.2.2 _ rfl⟩

theorem pySetEq_iff (a b : List ℕ) :
    pySetEq a b = true ↔ a.toFinset = b.toFinset := by
  unfold pySetEq
  rw [Bool.and_eq_true, List.all_eq_true, List.all_eq_true]
  constructor
  · rintro ⟨h1, h2⟩
    ext x
    simp only [List.mem_toFinset]
    constructor
    · intro hx
      have := h1 x hx
      rwa [List.elem_iff] at this
    · intro hx
      have := h2 x hx
      rwa [List.elem_iff] at this
  · intro h
    constructor
    · intro x hx
      rw [List.elem_iff]
      have : x ∈ a.toFinset := List.mem_toFinset.mpr hx
      rw [h] at this
      exact List.mem_toFinset.mp this
    · intro x hx
      rw [List.elem_iff]
      have : x ∈ b.toFinset := List.mem_toFinset.mpr hx
      rw [← h] at this
      exact List.mem_toFinset.mp this

theorem range'_toFinset (C : ℕ) :
    (List.range' 1 C).toFinset = Finset.Icc 1 C := by
  ext x
  simp only [List.mem_toFinset, List.mem_range'_1, Finset.mem_Icc]
  omega

theorem mappingChecks_ok_iff (chanList : List ℕ) (mapping : List (ℕ × ℕ)) :
    mappingChecks chanList mapping = .ok ()
      ↔ (pySetEq chanList (mapping.map Prod.fst) = true
         ∧ pySetEq (mapping.map Prod.snd) (List.range' 1 chanList.length) = true) := by
  unfold mappingChecks
  by_cases h1 : pySetEq chanList (mapping.map Prod.fst) = true
  · rw [if_neg (by simp [h1])]
    by_cases h2 : pySetEq (mapping.map Prod.snd) (List.range' 1 chanList.length) = true
    · rw [if_neg (by simp [h2])]
      simp [h1, h2]
    · rw [if_pos (by simpa using h2)]
      simp [h2]
  · rw [if_pos (by simpa using h1)]
    simp [h1]

/-- C7: the channel-mapping validation (shared verbatim by
`make_SEQX_from_forged_sequence` and `load_broadbean_sequence`) accepts a
mapping exactly when its key set equals the set of logical channels of
the tree and its value set is exactly the dense range 1..C; in
particular any duplicate in the value set is rejected. -/
theorem c7_channel_mapping_validation (chanList : List ℕ)
    (mapping : List (ℕ × ℕ)) (hnd : chanList.Nodup) :
    (mappingChecks chanList mapping = .ok ()
      ↔ ((mapping.map Prod.fst).toFinset = chanList.toFinset
         ∧ (mapping.map Prod.snd).toFinset = Finset.Icc 1 chanList.length))
    ∧ ((mapping.map Prod.fst).Nodup →
        mappingChecks chanList mapping = .ok () →
        (mapping.map Prod.snd).Nodup) := by
  have hiff : mappingChecks chanList mapping = .ok ()
      ↔ ((mapping.map Prod.fst).toFinset = chanList.toFinset
         ∧ (mapping.map Prod.snd).toFinset = Finset.Icc 1 chanList.length) := by
    rw [mappingChecks_ok_iff, pySetEq_iff, pySetEq_iff, range'_toFinset]
    constructor
    · rintro ⟨h1, h2⟩
      exact ⟨h1.symm, h2⟩
    · rintro ⟨h1, h2⟩
      exact ⟨h1.symm, h2⟩
  refine ⟨hiff, ?_⟩
  intro hknd hok
  obtain ⟨hk, hv⟩ := hiff.mp hok
  have hvc : (mapping.map Prod.snd).toFinset.card = chanList.length := by
    rw [hv, Nat.card_Icc]
    omega
  have hkc : (mapping.map Prod.fst).length = chanList.length := by
    have h1 : (mapping.map Prod.fst).toFinset.card = (mapping.map Prod.fst).length :=
      List.toFinset_card_of_nodup hknd
    have h2 : chanList.toFinset.card = chanList.length :=
      List.toFinset_card_of_nodup hnd
    rw [hk, h2] at h1
    omega
  have hlen : (mapping.map Prod.snd).length = chanList.length := by
    simp only [List.length_map] at hkc ⊢
    exact hkc
  have hded : (mapping.map Prod.snd).dedup.length = (mapping.map Prod.snd).length := by
    have := List.card_toFinset (mapping.map Prod.snd)
    omega
  have : (mapping.map Prod.snd).dedup = mapping.map Prod.snd :=
    (List.dedup_sublist _).eq_of_length hded
  rw [← this]
  exact List.nodup_dedup _

/-- Witness for C7: two logical channels mapped onto the value set 1 and
3 (a gap) are rejected; the same channels mapped onto 1 and 2 are
accepted. -/
theorem c7_channel_mapping_validation_witness :
    ([5, 7] : List ℕ).Nodup
    ∧ mappingChecks [5, 7] [(5, 1), (7, 3)] ≠ .ok ()
    ∧ mappingChecks [5, 7] [(5, 2), (7, 1)] = .ok () := by
  have hnd : ([5, 7] : List ℕ).Nodup := by decide
  refine ⟨hnd, ?_, ?_⟩
  · intro h
    have := ((c7_channel_mapping_validation [5, 7] [(5, 1), (7, 3)] hnd).1.mp h).2
    have hne : (([(5, 1), (7, 3)] : List (ℕ × ℕ)).map Prod.snd).toFinset
        ≠ Finset.Icc 1 ([5, 7] : List ℕ).length := by decide
    exact hne this
  · exact (c7_channel_mapping_validation [5, 7] [(5, 2), (7, 1)] hnd).1.mpr
      ⟨by decide, by decide⟩

/-! ## Lemmas about numpy max/min and the rescaling -/

theorem foldl_max_lt_iff (c : ℚ) :
    ∀ (xs : List ℚ) (x : ℚ), c < xs.foldl max x ↔ (c < x ∨ ∃ y ∈ xs, c < y) := by
  intro xs
  induction xs with
  | nil => intro x; simp
  | cons y ys ih =>
    intro x
    rw [List.foldl_cons, ih (max x y)]
    simp only [lt_max_iff, List.mem_cons]
    constructor
    · rintro ((h | h) | ⟨z, hz, hcz⟩)
      · exact Or.inl h
      · exact Or.inr ⟨y, Or.inl rfl, h⟩
      · exact Or.inr ⟨z, Or.inr hz, hcz⟩
    · rintro (h | ⟨z, (rfl | hz), hcz⟩)
      · exact Or.inl (Or.inl h)
      · exact Or.inl (Or.inr hcz)
      · exact Or.inr ⟨z, hz, hcz⟩

theorem foldl_min_lt_iff (c : ℚ) :
    ∀ (xs : List ℚ) (x : ℚ), xs.foldl min x < c ↔ (x < c ∨ ∃ y ∈ xs, y < c) := by
  intro xs
  induction xs with
  | nil => intro x; simp
  | cons y ys ih =>
    intro x
    rw [List.foldl_cons, ih (min x y)]
    simp only [min_lt_iff, List.mem_cons]
    constructor
    · rintro ((h | h) | ⟨z, hz, hcz⟩)
      · exact Or.inl h
      · exact Or.inr ⟨y, Or.inl rfl, h⟩
      · exact Or.inr ⟨z, Or.inr hz, hcz⟩
    · rintro (h | ⟨z, (rfl | hz), hcz⟩)
      · exact Or.inl (Or.inl h)
      · exact Or.inl (Or.inr hcz)
      · exact Or.inr ⟨z, hz, hcz⟩

theorem npMax_lt_iff {l : List ℚ} {m : ℚ} (c : ℚ) (h : npMax l = some m) :
    c < m ↔ ∃ x ∈ l, c < x := by
  match l with
  | [] => exact Option.noConfusion h
  | x :: xs =>
    have hm : xs.foldl max x = m := Option.some.inj h
    rw [← hm, foldl_max_lt_iff]
    simp only [List.mem_cons]
    constructor
    · rintro (h | ⟨y, hy, hcy⟩)
      · exact ⟨x, Or.inl rfl, h⟩
      · exact ⟨y, Or.inr hy, hcy⟩
    · rintro ⟨y, (rfl | hy), hcy⟩
      · exact Or.inl hcy
      · exact Or.inr ⟨y, hy, hcy⟩

theorem npMin_lt_iff {l : List ℚ} {m : ℚ} (c : ℚ) (h : npMin l = some m) :
    m < c ↔ ∃ x ∈ l, x < c := by
  match l with
  | [] => exact Option.noConfusion h
  | x :: xs =>
    have hm : xs.foldl min x = m := Option.some.inj h
    rw [← hm, foldl_min_lt_iff]
    simp only [List.mem_cons]
    constructor
    · rintro (h | ⟨y, hy, hcy⟩)
      · exact ⟨x, Or.inl rfl, h⟩
      · exact ⟨y, Or.inr hy, hcy⟩
    · rintro ⟨y, (rfl | hy), hcy⟩
      · exact Or.inl hcy
      · exact Or.inr ⟨y, hy, hcy⟩

theorem npMax_isSome {l : List ℚ} (h : l ≠ []) : ∃ m, npMax l = some m := by
  match l with
  | [] => exact absurd rfl h
  | x :: xs => exact ⟨xs.foldl max x, rfl⟩

theorem npMin_isSome {l : List ℚ} (h : l ≠ []) : ∃ m, npMin l = some m := by
  match l with
  | [] => exact absurd rfl h
  | x :: xs => exact ⟨xs.foldl min x, rfl⟩

theorem rescale_gt_one_iff {amp : ℚ} (hamp : 0 < amp) (x : ℚ) :
    1 < x * (2 / amp) ↔ amp / 2 < x := by
  rw [show x * (2 / amp) = x * 2 / amp from (mul_div_assoc x 2 amp).symm]
  rw [lt_div_iff₀ hamp, one_mul]
  exact (div_lt_iff₀ (by norm_num : (0:ℚ) < 2)).symm

theorem rescale_lt_negone_iff {amp : ℚ} (hamp : 0 < amp) (x : ℚ) :
    x * (2 / amp) < -1 ↔ x < -amp / 2 := by
  rw [show x * (2 / amp) = x * 2 / amp from (mul_div_assoc x 2 amp).symm]
  rw [div_lt_iff₀ hamp, neg_one_mul]
  exact (lt_div_iff₀ (by norm_num : (0:ℚ) < 2)).symm

theorem channelLimits_pos {amp : ℚ} (hamp : 0 < amp) :
    channelLimits amp = (-amp / 2, amp / 2) := by
  unfold channelLimits
  rw [if_neg (not_lt.mpr hamp.le)]

theorem outOfRange_iff (w : List ℚ) {amp : ℚ} (hamp : 0 < amp)
    {wmax wmin : ℚ} (hmax : npMax w = some wmax) (hmin : npMin w = some wmin) :
    (amp / 2 < wmax ∨ wmin < -amp / 2)
      ↔ ∃ x ∈ rescale w amp, 1 < x ∨ x < -1 := by
  rw [npMax_lt_iff (amp / 2) hmax, npMin_lt_iff (-amp / 2) hmin]
  constructor
  · rintro (⟨x, hx, hgt⟩ | ⟨x, hx, hlt⟩)
    · exact ⟨x * (2 / amp), List.mem_map_of_mem _ hx,
        Or.inl ((rescale_gt_one_iff hamp x).mpr hgt)⟩
    · exact ⟨x * (2 / amp), List.mem_map_of_mem _ hx,
        Or.inr ((rescale_lt_negone_iff hamp x).mpr hlt)⟩
  · rintro ⟨y, hy, hor⟩
    obtain ⟨x, hx, rfl⟩ := List.mem_map.mp hy
    rcases hor with hgt | hlt
    · exact Or.inl ⟨x, hx, (rescale_gt_one_iff hamp x).mp hgt⟩
    · exact Or.inr ⟨x, hx, (rescale_lt_negone_iff hamp x).mp hlt⟩

/-- C2 (amended): for waveforms whose rescaled values exceed the
(-1, 1) range, the container path (`_make_WFMX_file_binary_data`) logs
the out-of-range diagnostic and continues, producing the packed
*unclipped* rescaled samples; the direct-transfer path (`_send_waveform`)
raises a hard `ValueError` and never reaches the instrument-transfer
commands. -/
theorem c2_range_policy (w : List ℚ) (ms : List (List ℚ)) (amp : ℚ)
    (hamp : 0 < amp) (hw : w ≠ []) :
    (∃ warned : Bool,
       makeWFMXBinaryDataE (.oneD w) amp = .ok (warned, packFloats (rescale w amp))
       ∧ (warned = true ↔ ∃ x ∈ rescale w amp, 1 < x ∨ x < -1))
  ∧ (∀ m1 mb, ms[0]? = some m1 →
       packB ((combineRowsAux 1 m1 ms.tail).map truncQ) = .ok mb →
       ∃ warned : Bool,
         makeWFMXBinaryDataE (.twoD w ms) amp
           = .ok (warned, packFloats (rescale w amp) ++ mb)
         ∧ (warned = true ↔ ∃ x ∈ rescale w amp, 1 < x ∨ x < -1))
  ∧ ((∃ x ∈ rescale w amp, 1 < x ∨ x < -1) →
       sendWaveformE (.oneD w) amp
         = .error (.valueError (chars "Waveform exceeds specified channel range.")))
  ∧ (∀ r, (∃ x ∈ rescale w amp, 1 < x ∨ x < -1) →
       sendWaveformE (.twoD w ms) amp ≠ .ok r) := by
  obtain ⟨wmax, hmax⟩ := npMax_isSome hw
  obtain ⟨wmin, hmin⟩ := npMin_isSome hw
  have hiff := outOfRange_iff w hamp hmax hmin
  have hwarn : ∀ b : Bool, b = (if amp / 2 < wmax ∨ wmin < -amp / 2 then true else false) →
      (b = true ↔ ∃ x ∈ rescale w amp, 1 < x ∨ x < -1) := by
    intro b hb
    subst hb
    by_cases hc : amp / 2 < wmax ∨ wmin < -amp / 2
    · rw [if_pos hc]
      exact iff_of_true rfl (hiff.mp hc)
    · rw [if_neg hc]
      exact iff_of_false (by simp) (fun hP => hc (hiff.mpr hP))
  refine ⟨?_, ?_, ?_, ?_⟩
  · refine ⟨_, ?_, hwarn _ rfl⟩
    simp only [makeWFMXBinaryDataE, channelLimits_pos hamp, hmax, hmin,
      getOrRaise, pyBind_ok]
    rw [if_neg hamp.ne']
  · intro m1 mb hm1 hpk
    refine ⟨_, ?_, hwarn _ rfl⟩
    simp only [makeWFMXBinaryDataE, channelLimits_pos hamp, hm1, hpk, hmax, hmin,
      getOrRaise, pyBind_ok]
    rw [if_neg hamp.ne']
  · intro hx
    have hwne : rescale w amp ≠ [] := by
      unfold rescale
      simpa using hw
    obtain ⟨smax, hsmax⟩ := npMax_isSome hwne
    obtain ⟨smin, hsmin⟩ := npMin_isSome hwne
    have hcond : 1 < smax ∨ smin < -1 := by
      obtain ⟨y, hy, hgt | hlt⟩ := hx
      · exact Or.inl ((npMax_lt_iff 1 hsmax).mpr ⟨y, hy, hgt⟩)
      · exact Or.inr ((npMin_lt_iff (-1) hsmin).mpr ⟨y, hy, hlt⟩)
    simp only [sendWaveformE, hsmax, hsmin, getOrRaise, pyBind_ok]
    rw [if_neg hamp.ne']
    rw [if_pos hcond]
  · intro r hx hok
    have hwne : rescale w amp ≠ [] := by
      unfold rescale
      simpa using hw
    obtain ⟨smax, hsmax⟩ := npMax_isSome hwne
    obtain ⟨smin, hsmin⟩ := npMin_isSome hwne
    have hcond : 1 < smax ∨ smin < -1 := by
      obtain ⟨y, hy, hgt | hlt⟩ := hx
      · exact Or.inl ((npMax_lt_iff 1 hsmax).mpr ⟨y, hy, hgt⟩)
      · exact Or.inr ((npMin_lt_iff (-1) hsmin).mpr ⟨y, hy, hlt⟩)
    simp only [sendWaveformE] at hok
    cases hm1 : ms[0]? with
    | none =>
      rw [hm1] at hok
      simp only [getOrRaise, pyBind_error] at hok
      exact Except.noConfusion hok
    | some m1 =>
      rw [hm1] at hok
      simp only [getOrRaise, pyBind_ok] at hok
      cases hm2 : ms[1]? with
      | none =>
        rw [hm2] at hok
        simp only [getOrRaise, pyBind_error] at hok
        exact Except.noConfusion hok
      | some m2 =>
        rw [hm2] at hok
        simp only [getOrRaise, pyBind_ok] at hok
        cases hnb : nbMarkerOf (WfmData.twoD w ms) with
        | error e => rw [hnb, pyBind_error] at hok; exact Except.noConfusion hok
        | ok nb =>
          rw [hnb, pyBind_ok] at hok
          cases hpk : packB ((List.zipWith (fun a b => a * 64 + b * 128) m1 m2).map truncQ) with
          | error e => rw [hpk, pyBind_error] at hok; exact Except.noConfusion hok
          | ok bm =>
            rw [hpk, pyBind_ok] at hok
            rw [if_neg hamp.ne'] at hok
            rw [hsmax, hsmin] at hok
            simp only [getOrRaise, pyBind_ok] at hok
            rw [if_pos hcond] at hok
            exact Except.noConfusion hok

theorem intLog2_six : Int.log 2 (6 : ℚ) = 2 := by
  have h : Nat.log 2 6 = 2 :=
    @Nat.log_eq_of_pow_le_of_lt_pow 2 2 6 (by norm_num) (by norm_num)
  rw [Int.log_ofNat, h]
  norm_num

theorem rhe_intCast (z : ℤ) : rhe ((z : ℚ)) = z := by
  unfold rhe
  rw [Int.floor_intCast]
  simp

theorem f32bits_six : f32bits 6 = 1086324736 := by
  have habs : |(6:ℚ)| = 6 := by norm_num
  simp only [f32bits, habs, intLog2_six]
  norm_num
  rw [show ((12582912 : ℚ)) = ((12582912 : ℤ) : ℚ) by norm_num, rhe_intCast]
  norm_num
  decide

theorem f32bits_one : f32bits 1 = 1065353216 := by
  have habs : |(1:ℚ)| = 1 := by norm_num
  have hlog : Int.log 2 (1 : ℚ) = 0 := Int.log_one_right 2
  simp only [f32bits, habs, hlog]
  norm_num
  rw [show ((8388608 : ℚ)) = ((8388608 : ℤ) : ℚ) by norm_num, rhe_intCast]
  norm_num
  decide

/-- C2, counterexample to the claim as stated: at waveform `[3]` with
amplitude 1, the container path logs the diagnostic and keeps going, but
the packed output holds the *unclipped* rescaled sample 6 (outside
(-1, 1)): the produced bytes are those of 6, not of any clipped value —
in particular they differ from the bytes of 1. -/
theorem c2_no_clipping_counterexample :
    makeWFMXBinaryDataE (.oneD [3]) 1 = .ok (true, packFloats (rescale [3] 1))
    ∧ rescale [3] 1 = [6]
    ∧ (1 : ℚ) < 6
    ∧ packFloats (rescale [3] 1) ≠ packFloats [1] := by
  have hone : (0:ℚ) < 1 := by norm_num
  have hmax : npMax [(3:ℚ)] = some 3 := rfl
  have hmin : npMin [(3:ℚ)] = some 3 := rfl
  have h2 : rescale [3] 1 = [6] := by
    unfold rescale
    norm_num
  refine ⟨?_, h2, by norm_num, ?_⟩
  · simp only [makeWFMXBinaryDataE, channelLimits_pos hone, hmax, hmin,
      getOrRaise, pyBind_ok]
    rw [if_neg hone.ne']
    rw [if_pos (by norm_num : (1:ℚ)/2 < 3 ∨ (3:ℚ) < -(1:ℚ)/2)]
  · rw [h2]
    have h6 : packFloats [6] = [0, 0, 192, 64] := by
      simp only [packFloats, List.flatMap_cons, List.flatMap_nil, f32le, f32bits_six]
      norm_num
    have hc1 : packFloats [1] = [0, 0, 128, 63] := by
      simp only [packFloats, List.flatMap_cons, List.flatMap_nil, f32le, f32bits_one]
      norm_num
    rw [h6, hc1]
    decide

theorem rescale_three_mem : (1:ℚ) < 3 * (2/1) := by norm_num

/-- Witness for C2: waveform `[3]` at amplitude 1 rescales out of range
and the direct-transfer path raises the hard range error. -/
theorem c2_range_policy_witness :
    (0 : ℚ) < 1 ∧ ([3] : List ℚ) ≠ []
    ∧ sendWaveformE (.oneD [3]) 1
        = .error (.valueError (chars "Waveform exceeds specified channel range.")) :=
  ⟨by decide, by decide,
   (c2_range_policy [3] [] 1 (by decide) (by decide)).2.2.1
     ⟨3 * (2/1), by simp [rescale], Or.inl rescale_three_mem⟩⟩

/-- C4: the marker combination of `_make_WFMX_file_binary_data` at the
failing input marker1 = marker2 = 1 packs the byte 11 = bit0 + bit1 +
bit3: bit2 is 0 even though the adjacent comment and the dual-channel
decode scheme require the first marker on bits 0 and 2 (and so the
bit0..bit3 extraction cannot reconstruct the two marker pairs). -/
theorem c4_marker_bias_failing_input :
    combineRowsAux 1 [(1:ℚ)] [[1]] = [11]
    ∧ truncQ 11 = 11
    ∧ makeWFMXBinaryDataE (.twoD [0] [[1], [1]]) 1
        = .ok (false, packFloats (rescale [0] 1) ++ [11])
    ∧ Nat.testBit 11 0 = true ∧ Nat.testBit 11 1 = true
    ∧ Nat.testBit 11 3 = true ∧ Nat.testBit 11 2 = false := by
  have hone : (0:ℚ) < 1 := by norm_num
  have hcomb : combineRowsAux 1 [(1:ℚ)] [[1]] = [11] := by
    unfold combineRowsAux combineRowsAux
    simp only [List.zipWith_cons_cons, List.zipWith_nil_right]
    norm_num
  have htr : truncQ 11 = 11 := by decide
  have hpk : packB ((combineRowsAux 1 [(1:ℚ)] [[1]]).map truncQ) = .ok [11] := by
    rw [hcomb]
    simp only [List.map_cons, List.map_nil, htr]
    rfl
  refine ⟨hcomb, htr, ?_, by decide, by decide, by decide, by decide⟩
  have hmax : npMax [(0:ℚ)] = some 0 := rfl
  have hmin : npMin [(0:ℚ)] = some 0 := rfl
  have hm1 : ([[1], [1]] : List (List ℚ))[0]? = some [1] := rfl
  simp only [makeWFMXBinaryDataE, channelLimits_pos hone, hm1, hmax, hmin,
    getOrRaise, pyBind_ok, List.tail_cons]
  rw [hpk, pyBind_ok]
  rw [if_neg hone.ne']
  rw [if_neg (by norm_num : ¬((1:ℚ)/2 < 0 ∨ (0:ℚ) < -(1:ℚ)/2))]
